import Mathlib

/-
Verification development for the MAS-Chatbot crawl-dedupe-persist pipeline
(source: scraper_v2.py, server.py).

The Python source is shallowly embedded below:
  * strings are Lean Strings (with most computations on their List Char data);
  * parsed HTML (BeautifulSoup) is a tree of elements; soup.find /
    find_all are pre-order searches over that tree;
  * the network, the clock and the filesystem-save outcome are oracles in
    an explicit Env record;
  * a Python exception escaping process_urls is an explicit exn field of
    the run state (set by the raising operation, absorbed by later steps);
  * observable side effects (log_fn calls, HTTP requests, file saves,
    sink ingestion) are recorded in a logs list and an event trace.
-/

set_option maxRecDepth 8000

namespace Scraper

/-! ## Python string primitives -/

/-- Python whitespace set (ASCII fragment) used by str.strip(). -/
def isPySpace (c : Char) : Bool :=
  c == ' ' || c == '\t' || c == '\n' || c == '\r' || c == '\x0b' || c == '\x0c'

/-- Python str.strip() on the character list. -/
def pystripL (s : List Char) : List Char :=
  ((s.dropWhile isPySpace).reverse.dropWhile isPySpace).reverse

/-- Python str.strip(). -/
def pystrip (s : String) : String := ⟨pystripL s.data⟩

/-- Fuel-driven worker for Python str.replace(pat, "") (removes every
non-overlapping occurrence of pat, scanning left to right).  The fuel is
only there to make the recursion structural; replaceAll supplies enough. -/
def replaceAllF : Nat → List Char → List Char → List Char
  | 0, _, s => s
  | _ + 1, _, [] => []
  | n + 1, pat, c :: cs =>
    if pat.isPrefixOf (c :: cs) then replaceAllF n pat (cs.drop (pat.length - 1))
    else c :: replaceAllF n pat cs

/-- Python s.replace(pat, "") for a non-empty pattern. -/
def replaceAll (pat s : List Char) : List Char := replaceAllF s.length pat s

/-- Python s.rstrip("/"): drop every trailing slash. -/
def rstripSlash (s : List Char) : List Char := (s.reverse.dropWhile (· = '/')).reverse

/-- The first pattern normalize removes, as a character list. -/
def httpsL : List Char := "https://".data

/-- The second pattern normalize removes, as a character list. -/
def httpL : List Char := "http://".data

/-- normalize from process_urls (scraper_v2.py:191):
u.replace("https://", "").replace("http://", "").rstrip("/"), on char lists. -/
def normalizeL (u : List Char) : List Char :=
  rstripSlash (replaceAll httpL (replaceAll httpsL u))

/-- normalize from process_urls (scraper_v2.py:191), on Strings. -/
def normalize (u : String) : String := ⟨normalizeL u.data⟩

/-- Python `pat in s` substring test (for a non-empty pattern). -/
def containsSeq (pat : List Char) : List Char → Bool
  | [] => false
  | c :: cs => pat.isPrefixOf (c :: cs) || containsSeq pat cs

/-! ## Parsed HTML (BeautifulSoup model)

An element has a tag name, a class list, its directly contained text and
its child elements; a soup is the list of root elements.  soup.find(...)
is a pre-order search over all elements; element.find_all(...) searches
the strict descendants of the element. -/

mutual
inductive Html where
  | elem (tag : String) (classes : List String) (htext : String) (children : HtmlList)
inductive HtmlList where
  | nil
  | cons (h : Html) (t : HtmlList)
end

def Html.tag : Html → String
  | .elem t _ _ _ => t

def Html.classes : Html → List String
  | .elem _ c _ _ => c

def Html.children : Html → HtmlList
  | .elem _ _ _ ch => ch

mutual
/-- BeautifulSoup element.get_text(): all text in the subtree. -/
def getTextH : Html → String
  | .elem _ _ x ch => x ++ getTextL ch
def getTextL : HtmlList → String
  | .nil => ""
  | .cons h t => getTextH h ++ getTextL t
end

mutual
/-- soup.find: first element, in document (pre-order) order, satisfying p. -/
def findFirstH (p : Html → Bool) : Html → Option Html
  | .elem t c x ch =>
    if p (.elem t c x ch) then some (.elem t c x ch) else findFirstL p ch
def findFirstL (p : Html → Bool) : HtmlList → Option Html
  | .nil => none
  | .cons h t =>
    match findFirstH p h with
    | some r => some r
    | none => findFirstL p t
end

mutual
/-- find_all: every element of the forest, in document order, satisfying p. -/
def findAllH (p : Html → Bool) : Html → List Html
  | .elem t c x ch =>
    (if p (.elem t c x ch) then [Html.elem t c x ch] else []) ++ findAllL p ch
def findAllL (p : Html → Bool) : HtmlList → List Html
  | .nil => []
  | .cons h t => findAllH p h ++ findAllL p t
end

mutual
/-- The elements of a tree in document (pre-order) order. -/
def preorderH : Html → List Html
  | .elem t c x ch => Html.elem t c x ch :: preorderL ch
def preorderL : HtmlList → List Html
  | .nil => []
  | .cons h t => preorderH h ++ preorderL t
end

/-! ## Data model -/

/-- One successfully extracted article, as stored in the JSON file
(the constant "success": true field is omitted from the record and
reinstated by the serializer). -/
structure Doc where
  url : String
  title : String
  text : String
  extractedAt : String
deriving Repr, DecidableEq

/-- The persisted store contents: field "articles" and "next_link" of the
JSON object handled by _load_json_data / _save_json_data. -/
structure Store where
  articles : List Doc
  next_link : Option String
deriving Repr, DecidableEq

/-- Oracles for everything outside the program: the network (a fetch that
returns parsed HTML, or none for any requests exception / non-2xx status),
link extraction network results for a listing URL, the clock, and whether
the k-th _save_json_data call inside process_urls succeeds (saveOk) and
whether the one save in the __main__ paginated branch succeeds. -/
structure Env where
  fetch : String → Option HtmlList
  extractLinks : String → List String × Option String
  now : String → String
  saveOk : Nat → Bool
  mainSaveOk : Bool

/-- Observable events of a run, in order. -/
inductive Ev where
  | fetchListing (url : String)
  | fetchArticle (url : String)
  | saveFile (s : Store)
  | ingestBatch (docs : List Doc)
deriving Repr, DecidableEq

/-! ## scrape_article_content (scraper_v2.py:97) -/

/-- content_div = soup.find('article') or soup.find('main')
or soup.find('div', class_='entry-content') or soup.find('body'). -/
def contentDivOf (soup : HtmlList) : Option Html :=
  match findFirstL (fun e => e.tag == "article") soup with
  | some d => some d
  | none =>
    match findFirstL (fun e => e.tag == "main") soup with
    | some d => some d
    | none =>
      match findFirstL (fun e => e.tag == "div" && e.classes.contains "entry-content") soup with
      | some d => some d
      | none => findFirstL (fun e => e.tag == "body") soup

/-- The tag filter of content_div.find_all(['p', 'h2', 'h3']). -/
def isParaTag (e : Html) : Bool :=
  e.tag == "p" || e.tag == "h2" || e.tag == "h3"

/-- combined_text: the stripped texts of the p/h2/h3 descendants of the
container, empty ones skipped, joined by a blank line. -/
def combinedTextOf (soup : HtmlList) : String :=
  match contentDivOf soup with
  | some c =>
    String.intercalate "\n\n"
      ((findAllL isParaTag c.children).filterMap fun q =>
        let s := pystrip (getTextH q)
        if s = "" then none else some s)
  | none => ""

/-- title = soup.find(['h1', 'title']) text, stripped, else "Unknown Title". -/
def titleOf (soup : HtmlList) : String :=
  match findFirstL (fun e => e.tag == "h1" || e.tag == "title") soup with
  | some t => pystrip (getTextH t)
  | none => "Unknown Title"

/-- scrape_article_content (scraper_v2.py:97): any network/HTTP failure is
caught and yields None (fetch oracle returns none); an empty combined text
yields None; otherwise a Doc stamped with the clock oracle. -/
def scrape_article_content (env : Env) (url : String) : Option Doc :=
  match env.fetch url with
  | none => none
  | some soup =>
    let title := titleOf soup
    let combined := combinedTextOf soup
    if combined = "" then none
    else some { url := url, title := title, text := combined, extractedAt := env.now url }

/-! ## Persistence (_save_json_data, scraper_v2.py:44)

_save_json_data opens the target path in truncating write mode and
json.dump-s the whole store into it.  The serializer below reproduces the
JSON structure (keys and values); json.dump's exact whitespace (indent=2)
is abstracted, which no claim depends on. -/

def jsonEscape (s : String) : String :=
  ⟨s.data.foldr
    (fun c acc =>
      if c = '\\' then '\\' :: '\\' :: acc
      else if c = '\"' then '\\' :: '\"' :: acc
      else c :: acc) []⟩

def serialize_doc (d : Doc) : String :=
  "\x7b\"url\": \"" ++ jsonEscape d.url ++ "\", \"title\": \"" ++ jsonEscape d.title ++
    "\", \"text\": \"" ++ jsonEscape d.text ++ "\", \"success\": true, \"extracted_at\": \"" ++
    jsonEscape d.extractedAt ++ "\"\x7d"

def serialize_store (s : Store) : String :=
  "\x7b\"articles\": [" ++ String.intercalate ", " (s.articles.map serialize_doc) ++
    "], \"next_link\": " ++
    (match s.next_link with
     | some l => "\"" ++ jsonEscape l ++ "\""
     | none => "null") ++ "\x7d"

/-- The file operations _save_json_data performs on the target path:
open-with-truncation, write, close.  There is no temporary file and no
rename in the sequence. -/
inductive FileOp where
  | openTruncate (path : String)
  | writeChunk (path : String) (chunk : String)
  | closeFile (path : String)
  | renameFile (src dst : String)
deriving Repr, DecidableEq

def save_json_data_ops (path : String) (s : Store) : List FileOp :=
  [FileOp.openTruncate path, FileOp.writeChunk path (serialize_store s), FileOp.closeFile path]

/-- Every content the target path can hold if the process crashes at some
point of _save_json_data(path, s): the prior content (crash before the
truncating open takes effect) or any written prefix of the new serialized
state (the empty prefix right after truncation, partial prefixes while the
buffered write is flushed, the full text once the write completed). -/
def save_json_data_crash_contents (old : String) (s : Store) : List String :=
  old :: (List.range ((serialize_store s).length + 1)).map fun k =>
    ⟨(serialize_store s).data.take k⟩

/-! ## process_urls (scraper_v2.py:185) -/

/-- existing_normalized (scraper_v2.py:194): the dedup index built from the
loaded articles; entries with a falsy (empty) url are excluded by the
`if a.get("url")` guard. -/
def existing_normalized (articles : List Doc) : List String :=
  (articles.filter fun a => a.url ≠ "").map fun a => normalize a.url

/-- State of one process_urls call: the in-memory data_store, the last
successfully persisted store (disk), the in-memory dedup index, the
new_articles batch, the log_fn lines, the event trace, the number of save
attempts made, and the pending uncaught exception, if any. -/
structure RunState where
  store : Store
  disk : Store
  index : List String
  batch : List Doc
  logs : List String
  trace : List Ev
  saves : Nat
  exn : Option String
deriving Repr, DecidableEq

/-- One iteration of the per-URL loop of process_urls (scraper_v2.py:198).
If an exception is already pending, the loop is not running any more and
the state is left unchanged.  A failing _save_json_data raises: the
article was already appended to the in-memory store and batch, the index
is not updated, the persisted file is modelled as keeping its previous
state (byte-level corruption of an interrupted write is treated in the
_save_json_data crash model above). -/
def step (env : Env) (st : RunState) (url : String) : RunState :=
  if st.exn.isSome then st
  else
    let norm := normalize url
    if norm ∈ st.index then
      { st with logs := st.logs ++ ["Skipping cached URL: " ++ url] }
    else
      let st1 := { st with
        logs := st.logs ++ ["Scraping: " ++ url],
        trace := st.trace ++ [Ev.fetchArticle url] }
      match scrape_article_content env url with
      | some doc =>
        let store1 : Store := { st1.store with articles := st1.store.articles ++ [doc] }
        if env.saveOk st1.saves then
          { st1 with
            store := store1,
            batch := st1.batch ++ [doc],
            disk := store1,
            trace := st1.trace ++ [Ev.saveFile store1],
            saves := st1.saves + 1,
            logs := st1.logs ++ ["Saved to JSON: " ++ doc.title],
            index := st1.index ++ [norm] }
        else
          { st1 with
            store := store1,
            batch := st1.batch ++ [doc],
            saves := st1.saves + 1,
            exn := some "save failed" }
      | none =>
        { st1 with logs := st1.logs ++ ["Failed to extract content from: " ++ url] }

/-- The initial run state of process_urls over a loaded store. -/
def initState (disk0 : Store) : RunState :=
  { store := disk0, disk := disk0, index := existing_normalized disk0.articles,
    batch := [], logs := [], trace := [], saves := 0, exn := none }

/-- process_urls (scraper_v2.py:185): load the store, loop over the URLs,
then hand the non-empty batch to ingest_data_to_astra (whose own internal
Astra DB failures are caught inside it).  The Python function returns
None; its observable outcome is this state.  disk0 is the parsed content
of the JSON file at json_path. -/
def process_urls (env : Env) (urls : List String) (disk0 : Store) : RunState :=
  let st := urls.foldl (step env) (initState disk0)
  if st.exn.isSome then st
  else if st.batch ≠ [] then
    { st with
      trace := st.trace ++ [Ev.ingestBatch st.batch],
      logs := st.logs ++ ["Preparing " ++ toString st.batch.length ++ " articles for Astra DB ingestion..."] }
  else
    { st with logs := st.logs ++ ["No new content found to upload."] }

/-- The value process_urls returns to its caller: the Python function has
no return statement, so the caller always receives None. -/
def process_urls_ret (env : Env) (urls : List String) (disk0 : Store) : Unit :=
  let _ := process_urls env urls disk0
  ()

/-- The __main__ paginated branch (scraper_v2.py:344): extract the listing
links and next link, load the store, overwrite next_link, save, then run
process_urls over the discovered links against the saved store. -/
def main_paginated (env : Env) (start_url : String) (disk0 : Store) : RunState :=
  let r := env.extractLinks start_url
  let links := r.1
  let nl := r.2
  let ds : Store := { disk0 with next_link := nl }
  if env.mainSaveOk then
    let st := process_urls env links ds
    { st with trace := Ev.fetchListing start_url :: Ev.saveFile ds :: st.trace }
  else
    { initState disk0 with
      store := ds, trace := [Ev.fetchListing start_url], exn := some "save failed" }

/-! ## Spec-side definitions (formalizations of the claims' words, to be
compared with the source-derived definitions above) -/

/-- The claim's reading of normalize: remove a LEADING scheme (and nothing
elsewhere in the string), written from the claim's words. -/
def stripLeadingScheme (u : List Char) : List Char :=
  if httpsL.isPrefixOf u then u.drop 8
  else if httpL.isPrefixOf u then u.drop 7
  else u

/-- The claim's normalize: leading scheme removed, trailing slashes removed,
nothing else changed. -/
def normalize_claimedL (u : List Char) : List Char :=
  rstripSlash (stripLeadingScheme u)

/-- The claim's normalize, on Strings. -/
def normalize_claimed (u : String) : String := ⟨normalize_claimedL u.data⟩

/-- The amended title rule for C5, written independently of the embedding's
short-circuit search: the first element of the page in document (pre-order)
order whose tag is h1 or title, else "Unknown Title". -/
def firstTitleMatch (soup : HtmlList) : String :=
  match (preorderL soup).find? (fun e => e.tag == "h1" || e.tag == "title") with
  | some t => pystrip (getTextH t)
  | none => "Unknown Title"

/-- A log_fn line that reports the outcome of one URL of the loop:
skipped, saved, or failed. -/
def outcomeLog (line : String) : Bool :=
  "Skipping cached URL: ".data.isPrefixOf line.data ||
  "Saved to JSON: ".data.isPrefixOf line.data ||
  "Failed to extract content from: ".data.isPrefixOf line.data

/-! ## Concrete fixtures (pages, environments and stores used by the
closed witness and counterexample theorems) -/

/-- An article page: title element in the head, a distinct h1 and one
paragraph in the body. -/
def pageA : HtmlList :=
  .cons (.elem "head" [] "" (.cons (.elem "title" [] " A Title " .nil) .nil))
    (.cons (.elem "body" [] ""
      (.cons (.elem "h1" [] "Big Head" .nil)
        (.cons (.elem "p" [] " hello world " .nil)
          (.cons (.elem "p" [] "   " .nil) .nil)))) .nil)

/-- A second article page with different body text. -/
def pageB : HtmlList :=
  .cons (.elem "body" [] ""
    (.cons (.elem "h1" [] "Other" .nil)
      (.cons (.elem "p" [] "other text" .nil) .nil))) .nil

/-- An article page whose body container holds only whitespace-only
paragraph elements. -/
def pageW : HtmlList :=
  .cons (.elem "body" [] ""
    (.cons (.elem "p" [] "  \n " .nil) (.cons (.elem "p" [] "\t" .nil) .nil))) .nil

/-- Environment: two fetchable article pages, everything else unreachable,
all saves succeed. -/
def envA : Env :=
  { fetch := fun u =>
      if u = "http://a.com/x" then some pageA
      else if u = "http://b.com/y" then some pageB
      else none,
    extractLinks := fun _ => ([], none),
    now := fun _ => "t0",
    saveOk := fun _ => true,
    mainSaveOk := true }

/-- Environment where every save of process_urls raises. -/
def envC6 : Env :=
  { envA with saveOk := fun _ => false }

/-- Environment for the paginated-mode witness: the listing yields no
article links but a next-page link. -/
def envP : Env :=
  { envA with extractLinks := fun _ => ([], some "http://s.com/page2") }

/-- Environment serving the whitespace-only page. -/
def envWS : Env :=
  { envA with fetch := fun u => if u = "http://w.com" then some pageW else none }

/-- An already-stored document whose url field is the empty string (the
legacy store file can contain it; the dedup index ignores it). -/
def docE : Doc := { url := "", title := "t", text := "x", extractedAt := "ts" }

/-- A concrete stored document for the persistence counterexample. -/
def docA : Doc := { url := "http://a.com/x", title := "A", text := "body", extractedAt := "ts" }

/-- The document scrape_article_content extracts from pageA. -/
def dA : Doc := { url := "http://a.com/x", title := "A Title", text := "hello world", extractedAt := "t0" }

/-- The document scrape_article_content extracts from pageB. -/
def dB : Doc := { url := "http://b.com/y", title := "Other", text := "other text", extractedAt := "t0" }

/-! ## Helper lemmas -/

theorem isPrefixOf_self_app (p r : List Char) : p.isPrefixOf (p ++ r) = true := by
  induction p with
  | nil => simp [List.isPrefixOf]
  | cons c cs ih => simp [List.isPrefixOf, ih]

theorem isPrefixOf_ex {p s : List Char} (h : p.isPrefixOf s = true) : ∃ r, s = p ++ r := by
  induction p generalizing s with
  | nil => exact ⟨s, rfl⟩
  | cons c cs ih =>
    cases s with
    | nil => simp [List.isPrefixOf] at h
    | cons b bs =>
      simp only [List.isPrefixOf, Bool.and_eq_true, beq_iff_eq] at h
      obtain ⟨r, hr⟩ := ih h.2
      exact ⟨r, by simp [h.1, hr]⟩

theorem replaceAllF_not_contains (n : Nat) (pat : List Char) :
    ∀ s : List Char, containsSeq pat s = false → replaceAllF n pat s = s := by
  induction n with
  | zero => intro s _; rfl
  | succ n ih =>
    intro s h
    cases s with
    | nil => rfl
    | cons c cs =>
      simp only [containsSeq, Bool.or_eq_false_iff] at h
      simp [replaceAllF, h.1, ih cs h.2]

theorem replaceAll_not_contains (pat s : List Char) (h : containsSeq pat s = false) :
    replaceAll pat s = s :=
  replaceAllF_not_contains _ _ _ h

theorem replaceAll_cons_app (c : Char) (cs r : List Char)
    (h : containsSeq (c :: cs) r = false) :
    replaceAll (c :: cs) ((c :: cs) ++ r) = r := by
  show replaceAllF ((c :: (cs ++ r)).length) (c :: cs) (c :: (cs ++ r)) = r
  have hpre : (c :: cs).isPrefixOf (c :: (cs ++ r)) = true := isPrefixOf_self_app (c :: cs) r
  have hdrop : (cs ++ r).drop (cs.length + 1 - 1) = r := by
    simp
  simp only [List.length_cons, replaceAllF, hpre, if_true, hdrop]
  exact replaceAllF_not_contains _ _ r h

theorem replaceAll_app_self (pat r : List Char) (hne : pat ≠ [])
    (h : containsSeq pat r = false) :
    replaceAll pat (pat ++ r) = r := by
  cases pat with
  | nil => exact absurd rfl hne
  | cons c cs => exact replaceAll_cons_app c cs r h

theorem contains_httpsL_httpL_app (r : List Char)
    (h : containsSeq httpsL r = false) :
    containsSeq httpsL (httpL ++ r) = false := by
  have h7 : httpL ++ r = 'h' :: 't' :: 't' :: 'p' :: ':' :: '/' :: '/' :: r := rfl
  have hs : httpsL = ['h', 't', 't', 'p', 's', ':', '/', '/'] := rfl
  rw [hs] at h
  rw [h7, hs]
  simpa [containsSeq, List.isPrefixOf] using h

/-! ## C4: normalize -/

/-- C4 (corrected): the code's normalize removes every occurrence of
https:// then http:// anywhere in the URL, not only a leading prefix; on
URLs where a scheme substring occurs only as the leading prefix it agrees
with the claimed prefix-stripping, and the three example URLs map to the
same dedup key. -/
theorem normalize_strips_all_occurrences :
    (∀ u : List Char,
      containsSeq httpsL (stripLeadingScheme u) = false →
      containsSeq httpL (stripLeadingScheme u) = false →
      normalizeL u = normalize_claimedL u) ∧
    normalize "http://example.com/a" = normalize "https://example.com/a" ∧
    normalize "https://example.com/a/" = normalize "http://example.com/a" := by
  refine ⟨?_, by decide, by decide⟩
  intro u h1 h2
  cases hps : httpsL.isPrefixOf u with
  | true =>
    obtain ⟨r, hr⟩ := isPrefixOf_ex hps
    subst hr
    have hstrip : stripLeadingScheme (httpsL ++ r) = r := by
      have hd : (httpsL ++ r).drop 8 = r := List.drop_left httpsL r
      simp [stripLeadingScheme, hps, hd]
    rw [hstrip] at h1 h2
    unfold normalizeL normalize_claimedL
    rw [hstrip, replaceAll_app_self httpsL r (by decide) h1,
      replaceAll_not_contains httpL r h2]
  | false =>
    cases hp : httpL.isPrefixOf u with
    | true =>
      obtain ⟨r, hr⟩ := isPrefixOf_ex hp
      subst hr
      have hstrip : stripLeadingScheme (httpL ++ r) = r := by
        have hd : (httpL ++ r).drop 7 = r := List.drop_left httpL r
        simp [stripLeadingScheme, hps, hp, hd]
      rw [hstrip] at h1 h2
      unfold normalizeL normalize_claimedL
      rw [hstrip, replaceAll_not_contains httpsL _ (contains_httpsL_httpL_app r h1),
        replaceAll_app_self httpL r (by decide) h2]
    | false =>
      have hstrip : stripLeadingScheme u = u := by
        simp [stripLeadingScheme, hps, hp]
      rw [hstrip] at h1 h2
      unfold normalizeL normalize_claimedL
      rw [hstrip, replaceAll_not_contains httpsL u h1, replaceAll_not_contains httpL u h2]

/-- C4 witness: the conditional part applied at a concrete URL. -/
theorem normalize_strips_all_occurrences_witness :
    normalizeL "https://x.com/p".data = normalize_claimedL "https://x.com/p".data :=
  normalize_strips_all_occurrences.1 "https://x.com/p".data (by decide) (by decide)

/-- C4 counterexample: an interior scheme occurrence is also removed, so
normalize differs from the claimed leading-prefix stripping. -/
theorem normalize_leading_only_cex :
    normalize "https://a/https://b" = "a/b" ∧
    normalize_claimed "https://a/https://b" = "a/https://b" ∧
    ("a/b" : String) ≠ "a/https://b" := by
  refine ⟨by decide, by decide, by decide⟩

/-! ## C1: _save_json_data durability -/

/-- C1 (corrected): _save_json_data serializes the whole state directly
into the truncated target path, with no temporary file and no rename; a
completed save leaves the full new serialization (the last crash point),
but a crash mid-save can leave the target path empty or holding any
prefix of the new serialization instead of the prior state. -/
theorem save_overwrite_semantics (old : String) (s : Store) :
    (save_json_data_crash_contents old s).get? ((serialize_store s).length + 1) =
      some (serialize_store s) ∧
    (save_json_data_crash_contents old s).length = (serialize_store s).length + 2 ∧
    "" ∈ save_json_data_crash_contents old s ∧
    (∀ c ∈ save_json_data_crash_contents old s,
      c = old ∨ ∃ k, c = String.mk ((serialize_store s).data.take k)) ∧
    (∀ path src dst, FileOp.renameFile src dst ∉ save_json_data_ops path s) := by
  refine ⟨?_, ?_, ?_, ?_, ?_⟩
  · unfold save_json_data_crash_contents
    rw [List.get?_cons_succ, List.get?_map, List.get?_range (Nat.lt_succ_self _)]
    show some (String.mk ((serialize_store s).data.take (serialize_store s).data.length)) = _
    rw [List.take_length]
  · simp [save_json_data_crash_contents]
  · unfold save_json_data_crash_contents
    exact List.mem_cons_of_mem _
      (List.mem_map.mpr ⟨0, List.mem_range.mpr (Nat.succ_pos _), rfl⟩)
  · intro c hc
    unfold save_json_data_crash_contents at hc
    rcases List.mem_cons.mp hc with h | h
    · exact Or.inl h
    · obtain ⟨k, _, hk⟩ := List.mem_map.mp h
      exact Or.inr ⟨k, hk.symm⟩
  · intro path src dst h
    simp [save_json_data_ops] at h

/-- C1 witness: the crash states of a concrete save contain the empty
file content. -/
theorem save_overwrite_semantics_witness :
    "" ∈ save_json_data_crash_contents "prior" { articles := [], next_link := none } :=
  (save_overwrite_semantics "prior" { articles := [], next_link := none }).2.2.1

/-- C1 counterexample: crashing between the truncating open and the write
leaves the target path holding neither the prior state nor the new state
(it is empty), so the atomic-replace property fails on the code. -/
theorem atomic_save_cex :
    "" ∈ save_json_data_crash_contents
        (serialize_store { articles := [], next_link := none })
        { articles := [docA], next_link := none } ∧
    serialize_store { articles := [], next_link := none } ≠ "" ∧
    serialize_store { articles := [docA], next_link := none } ≠ "" := by
  refine ⟨?_, by decide, by decide⟩
  exact List.mem_cons_of_mem _
    (List.mem_map.mpr ⟨0, List.mem_range.mpr (Nat.succ_pos _), rfl⟩)

/-! ## C5: title extraction -/

mutual
theorem findFirstH_eq_find (p : Html → Bool) (h : Html) :
    findFirstH p h = (preorderH h).find? p := by
  cases h with
  | elem t c x ch =>
    cases hp : p (.elem t c x ch) with
    | true => simp [findFirstH, preorderH, List.find?_cons, hp]
    | false => simp [findFirstH, preorderH, List.find?_cons, hp, findFirstL_eq_find p ch]

theorem findFirstL_eq_find (p : Html → Bool) (l : HtmlList) :
    findFirstL p l = (preorderL l).find? p := by
  cases l with
  | nil => rfl
  | cons h t =>
    rw [show preorderL (.cons h t) = preorderH h ++ preorderL t from rfl,
      List.find?_append, ← findFirstH_eq_find p h, ← findFirstL_eq_find p t]
    show (match findFirstH p h with
      | some r => some r
      | none => findFirstL p t) = _
    cases findFirstH p h <;> simp [Option.orElse]
end

theorem titleOf_eq_firstTitleMatch (soup : HtmlList) :
    titleOf soup = firstTitleMatch soup := by
  unfold titleOf firstTitleMatch
  rw [findFirstL_eq_find]

/-- C5 (corrected): the extracted title is the stripped text of the FIRST
element in document order whose tag is h1 or title (soup.find picks by
document position, not by h1 priority), else "Unknown Title". -/
theorem title_first_match (env : Env) (url : String) (soup : HtmlList) (d : Doc)
    (hf : env.fetch url = some soup)
    (hd : scrape_article_content env url = some d) :
    d.title = firstTitleMatch soup := by
  unfold scrape_article_content at hd
  rw [hf] at hd
  by_cases hc : combinedTextOf soup = ""
  · simp [hc] at hd
  · simp only [hc, if_neg, Option.some.injEq, if_false] at hd
    rw [← hd, ← titleOf_eq_firstTitleMatch]

/-- C5 witness: the rule applied to a concrete page. -/
theorem title_first_match_witness : dA.title = firstTitleMatch pageA :=
  title_first_match envA "http://a.com/x" pageA dA rfl (by decide)

/-- C5 counterexample: pageA has an h1 element with text "Big Head", yet
the extracted title is the text of the earlier title element, refuting
h1-priority. -/
theorem title_h1_first_cex :
    (findFirstL (fun e => e.tag == "h1") pageA).map getTextH = some "Big Head" ∧
    (scrape_article_content envA "http://a.com/x").map Doc.title = some "A Title" ∧
    ("A Title" : String) ≠ "Big Head" := by
  refine ⟨by decide, by decide, by decide⟩

/-! ## process_urls: basic lemmas -/

theorem scrape_fields {env : Env} {u : String} {d : Doc}
    (h : scrape_article_content env u = some d) : d.url = u ∧ d.text ≠ "" := by
  unfold scrape_article_content at h
  cases hf : env.fetch u with
  | none => rw [hf] at h; exact absurd h (by simp)
  | some soup =>
    rw [hf] at h
    by_cases hc : combinedTextOf soup = ""
    · simp [hc] at h
    · simp only [if_neg hc, Option.some.injEq] at h
      rw [← h]
      exact ⟨rfl, hc⟩

theorem step_exn {env : Env} {st : RunState} {u : String} (h : st.exn.isSome) :
    step env st u = st := by
  unfold step
  rw [if_pos h]

theorem foldl_step_exn {env : Env} (urls : List String) {st : RunState}
    (h : st.exn.isSome) : urls.foldl (step env) st = st := by
  induction urls with
  | nil => rfl
  | cons u us ih => rw [List.foldl_cons, step_exn h, ih]

theorem existing_normalized_app (l1 l2 : List Doc) :
    existing_normalized (l1 ++ l2) = existing_normalized l1 ++ existing_normalized l2 := by
  simp [existing_normalized]

theorem mem_existing {a : Doc} {l : List Doc} (ha : a ∈ l) (hne : a.url ≠ "") :
    normalize a.url ∈ existing_normalized l :=
  List.mem_map.mpr ⟨a, List.mem_filter.mpr ⟨ha, by simp [hne]⟩, rfl⟩

/-- Exhaustive description of one loop iteration: already-raised, skipped,
scraped-and-saved, scraped-but-save-raised, or failed. -/
theorem step_shape (env : Env) (st : RunState) (u : String) :
    (st.exn.isSome ∧ step env st u = st) ∨
    (st.exn = none ∧ normalize u ∈ st.index ∧
      step env st u = { st with logs := st.logs ++ ["Skipping cached URL: " ++ u] }) ∨
    (∃ d, st.exn = none ∧ normalize u ∉ st.index ∧
      scrape_article_content env u = some d ∧ env.saveOk st.saves = true ∧
      step env st u =
        { store := { articles := st.store.articles ++ [d], next_link := st.store.next_link },
          disk := { articles := st.store.articles ++ [d], next_link := st.store.next_link },
          index := st.index ++ [normalize u],
          batch := st.batch ++ [d],
          logs := st.logs ++ ["Scraping: " ++ u, "Saved to JSON: " ++ d.title],
          trace := st.trace ++ [Ev.fetchArticle u,
            Ev.saveFile { articles := st.store.articles ++ [d], next_link := st.store.next_link }],
          saves := st.saves + 1, exn := none }) ∨
    (∃ d, st.exn = none ∧ normalize u ∉ st.index ∧
      scrape_article_content env u = some d ∧ env.saveOk st.saves = false ∧
      step env st u =
        { store := { articles := st.store.articles ++ [d], next_link := st.store.next_link },
          disk := st.disk, index := st.index, batch := st.batch ++ [d],
          logs := st.logs ++ ["Scraping: " ++ u],
          trace := st.trace ++ [Ev.fetchArticle u],
          saves := st.saves + 1, exn := some "save failed" }) ∨
    (st.exn = none ∧ normalize u ∉ st.index ∧ scrape_article_content env u = none ∧
      step env st u =
        { st with
          logs := st.logs ++ ["Scraping: " ++ u, "Failed to extract content from: " ++ u],
          trace := st.trace ++ [Ev.fetchArticle u] }) := by
  by_cases he : st.exn.isSome
  · exact Or.inl ⟨he, step_exn he⟩
  · have he' : st.exn = none := Option.not_isSome_iff_eq_none.mp he
    by_cases hm : normalize u ∈ st.index
    · refine Or.inr (Or.inl ⟨he', hm, ?_⟩)
      unfold step
      rw [if_neg he, if_pos hm]
    · cases hs : scrape_article_content env u with
      | some d =>
        cases hk : env.saveOk st.saves with
        | true =>
          refine Or.inr (Or.inr (Or.inl ⟨d, he', hm, rfl, rfl, ?_⟩))
          unfold step
          rw [if_neg he, if_neg hm]
          simp only [hs, hk, if_true]
          simp [he', List.append_assoc]
        | false =>
          refine Or.inr (Or.inr (Or.inr (Or.inl ⟨d, he', hm, rfl, rfl, ?_⟩)))
          unfold step
          rw [if_neg he, if_neg hm]
          simp only [hs, hk]
          simp [List.append_assoc]
      | none =>
        refine Or.inr (Or.inr (Or.inr (Or.inr ⟨he', hm, rfl, ?_⟩)))
        unfold step
        rw [if_neg he, if_neg hm]
        simp only [hs]
        simp [List.append_assoc]

/-- The post-loop branches of process_urls only add logs and the ingest
event: every other field is the loop's final state. -/
theorem process_urls_fields (env : Env) (urls : List String) (disk0 : Store) :
    (process_urls env urls disk0).store = (urls.foldl (step env) (initState disk0)).store ∧
    (process_urls env urls disk0).disk = (urls.foldl (step env) (initState disk0)).disk ∧
    (process_urls env urls disk0).index = (urls.foldl (step env) (initState disk0)).index ∧
    (process_urls env urls disk0).batch = (urls.foldl (step env) (initState disk0)).batch ∧
    (process_urls env urls disk0).exn = (urls.foldl (step env) (initState disk0)).exn := by
  refine ⟨?_, ?_, ?_, ?_, ?_⟩ <;>
    · simp only [process_urls]
      split
      · rfl
      · split <;> rfl

/-! ## C9: non-empty text invariant -/

theorem foldl_step_text {env : Env} (urls : List String) :
    ∀ st : RunState, (∀ d ∈ st.store.articles, d.text ≠ "") →
      ∀ d ∈ (urls.foldl (step env) st).store.articles, d.text ≠ "" := by
  induction urls with
  | nil => intro st h; exact h
  | cons u us ih =>
    intro st h
    rw [List.foldl_cons]
    refine ih _ ?_
    rcases step_shape env st u with ⟨_, he⟩ | ⟨_, _, he⟩ | ⟨d, _, _, hs, _, he⟩ |
      ⟨d, _, _, hs, _, he⟩ | ⟨_, _, _, he⟩ <;> rw [he]
    · exact h
    · exact h
    · intro d' hd'
      rcases List.mem_append.mp hd' with h1 | h1
      · exact h d' h1
      · rw [List.mem_singleton.mp h1]; exact (scrape_fields hs).2
    · intro d' hd'
      rcases List.mem_append.mp hd' with h1 | h1
      · exact h d' h1
      · rw [List.mem_singleton.mp h1]; exact (scrape_fields hs).2
    · exact h

/-- C9 (confirmed): an extracted Document never has empty text; a page
whose body container holds only whitespace-only paragraph elements yields
None rather than a Document; and a store whose documents all have
non-empty text keeps that property across process_urls. -/
theorem nonempty_text_invariant :
    (∀ env url d, scrape_article_content env url = some d → d.text ≠ "") ∧
    (∀ env url soup c, env.fetch url = some soup → contentDivOf soup = some c →
      (∀ q ∈ findAllL isParaTag c.children, pystrip (getTextH q) = "") →
      scrape_article_content env url = none) ∧
    (∀ env urls disk0, (∀ d ∈ disk0.articles, d.text ≠ "") →
      ∀ d ∈ (process_urls env urls disk0).store.articles, d.text ≠ "") := by
  refine ⟨?_, ?_, ?_⟩
  · intro env url d h
    exact (scrape_fields h).2
  · intro env url soup c hf hc hws
    have hcomb : combinedTextOf soup = "" := by
      simp only [combinedTextOf, hc]
      rw [List.filterMap_eq_nil_iff.mpr fun q hq => by simp [hws q hq]]
      rfl
    simp only [scrape_article_content, hf]
    rw [if_pos hcomb]
  · intro env urls disk0 h d hd
    rw [(process_urls_fields env urls disk0).1] at hd
    exact foldl_step_text urls (initState disk0) h d hd

/-- C9 witness: the whitespace-only page yields None, through the second
conjunct at a concrete page and container. -/
theorem nonempty_text_invariant_witness :
    scrape_article_content envWS "http://w.com" = none :=
  nonempty_text_invariant.2.1 envWS "http://w.com" pageW
    (Html.elem "body" []
      "" (.cons (.elem "p" [] "  \n " .nil) (.cons (.elem "p" [] "\t" .nil) .nil)))
    rfl rfl (by decide)

/-! ## C3: partial-failure isolation -/

/-- C3 (confirmed): with a URL that always fails between two scrapeable
fresh URLs, the run completes with no pending exception, both valid
documents persisted in order, the failure only logged, and processing
continuing past the failure (the third URL is fetched and saved after the
failed fetch). -/
theorem partial_failure_isolation (env : Env) (v1 uu v2 : String) (d1 d2 : Doc)
    (disk0 : Store)
    (hs1 : scrape_article_content env v1 = some d1)
    (hsu : scrape_article_content env uu = none)
    (hs2 : scrape_article_content env v2 = some d2)
    (hn1 : normalize v1 ∉ existing_normalized disk0.articles)
    (hnu : normalize uu ∉ existing_normalized disk0.articles)
    (hn2 : normalize v2 ∉ existing_normalized disk0.articles)
    (hnuv1 : normalize uu ≠ normalize v1)
    (hn21 : normalize v2 ≠ normalize v1)
    (hsave : ∀ k, env.saveOk k = true) :
    (process_urls env [v1, uu, v2] disk0).exn = none ∧
    (process_urls env [v1, uu, v2] disk0).disk.articles = disk0.articles ++ [d1, d2] ∧
    ("Failed to extract content from: " ++ uu) ∈ (process_urls env [v1, uu, v2] disk0).logs ∧
    (process_urls env [v1, uu, v2] disk0).trace =
      [Ev.fetchArticle v1,
       Ev.saveFile { articles := disk0.articles ++ [d1], next_link := disk0.next_link },
       Ev.fetchArticle uu, Ev.fetchArticle v2,
       Ev.saveFile { articles := disk0.articles ++ [d1, d2], next_link := disk0.next_link },
       Ev.ingestBatch [d1, d2]] := by
  refine ⟨?_, ?_, ?_, ?_⟩ <;>
    simp [process_urls, initState, step, hs1, hsu, hs2, hn1, hnu, hn2, hnuv1, hn21, hsave]

/-- C3 witness: a concrete three-URL run with a dead middle URL. -/
theorem partial_failure_isolation_witness :
    (process_urls envA ["http://a.com/x", "http://dead.com", "http://b.com/y"]
      { articles := [], next_link := none }).disk.articles = [dA, dB] :=
  (partial_failure_isolation envA "http://a.com/x" "http://dead.com" "http://b.com/y"
    dA dB { articles := [], next_link := none }
    (by decide) (by decide) (by decide) (by decide) (by decide) (by decide)
    (by decide) (by decide) (fun k => rfl)).2.1

/-! ## C6: save failure behaviour -/

/-- C6 (corrected): when the save of a freshly scraped document raises, the
exception escapes the per-URL loop; no later URL is processed, the batch
(still holding the document in memory) is never handed to the ingestion
sink, the persisted file keeps its prior state, and the dedup index is not
updated. -/
theorem save_failure_aborts (env : Env) (u : String) (rest : List String)
    (disk0 : Store) (d : Doc)
    (hn : normalize u ∉ existing_normalized disk0.articles)
    (hs : scrape_article_content env u = some d)
    (hk : env.saveOk 0 = false) :
    process_urls env (u :: rest) disk0 =
      { store := { articles := disk0.articles ++ [d], next_link := disk0.next_link },
        disk := disk0,
        index := existing_normalized disk0.articles,
        batch := [d],
        logs := ["Scraping: " ++ u],
        trace := [Ev.fetchArticle u],
        saves := 1,
        exn := some "save failed" } := by
  have h1 : step env (initState disk0) u =
      { store := { articles := disk0.articles ++ [d], next_link := disk0.next_link },
        disk := disk0,
        index := existing_normalized disk0.articles,
        batch := [d],
        logs := ["Scraping: " ++ u],
        trace := [Ev.fetchArticle u],
        saves := 1,
        exn := some "save failed" } := by
    simp [step, initState, hn, hs, hk]
  unfold process_urls
  rw [List.foldl_cons, h1, foldl_step_exn rest (by simp)]
  rw [if_pos (by simp)]

/-- C6 witness: the exception field after a concrete failing save. -/
theorem save_failure_aborts_witness :
    (process_urls envC6 ["http://a.com/x"] { articles := [], next_link := none }).exn =
      some "save failed" :=
  congrArg RunState.exn
    (save_failure_aborts envC6 "http://a.com/x" [] { articles := [], next_link := none }
      dA (by decide) (by decide) rfl)

/-- C6 counterexample: after the first save fails, the second URL is never
fetched, nothing is ingested, and the exception is pending when
process_urls ends, refuting continue-and-log. -/
theorem save_failure_continues_cex :
    (process_urls envC6 ["http://a.com/x", "http://b.com/y"]
      { articles := [], next_link := none }).exn = some "save failed" ∧
    (process_urls envC6 ["http://a.com/x", "http://b.com/y"]
      { articles := [], next_link := none }).trace = [Ev.fetchArticle "http://a.com/x"] ∧
    (process_urls envC6 ["http://a.com/x", "http://b.com/y"]
      { articles := [], next_link := none }).batch = [dA] := by
  refine ⟨by decide, by decide, by decide⟩

/-! ## C2: dedup idempotence -/

/-- C2 (confirmed): for every URL u whose first processing by
process_urls succeeds (not already in the dedup index, fetch + extraction
yields a document, the save succeeds), a second run of process_urls([u])
against the resulting store skips u before any fetch, leaves the
persisted store unchanged, and exactly one stored document's normalized
URL equals normalize(u).

hreal records a fact of requests.get that the fetch oracle must respect:
a URL whose normalize-key is empty consists only of scheme fragments and
slashes ("", "/", "http://", "https://https://", ...), and requests
rejects every such URL (MissingSchema for a missing scheme, InvalidURL /
LocationParseError for an empty host or port) before any network I/O, so
fetching it never yields a page.  Hence a successfully fetched u has a
non-empty dedup key and a non-empty url, and the stored document is
visible to the dedup index of the second run; stored documents with an
empty (falsy) url have the empty key and therefore never collide with
normalize(u). -/
theorem dedup_idempotent (env1 env2 : Env) (u : String) (disk0 : Store) (d : Doc)
    (hreal : ∀ v, normalize v = "" → env1.fetch v = none)
    (hnew : normalize u ∉ existing_normalized disk0.articles)
    (hs : scrape_article_content env1 u = some d)
    (hsave : env1.saveOk 0 = true) :
    ((process_urls env2 [u] (process_urls env1 [u] disk0).disk).disk.articles.countP
      fun a => normalize a.url == normalize u) = 1 ∧
    (process_urls env2 [u] (process_urls env1 [u] disk0).disk).disk =
      (process_urls env1 [u] disk0).disk ∧
    (process_urls env2 [u] (process_urls env1 [u] disk0).disk).trace = [] ∧
    (process_urls env2 [u] (process_urls env1 [u] disk0).disk).logs =
      ["Skipping cached URL: " ++ u, "No new content found to upload."] := by
  have hdu : d.url = u := (scrape_fields hs).1
  have hn0 : normalize u ≠ "" := by
    intro h0
    have hf := hreal u h0
    unfold scrape_article_content at hs
    rw [hf] at hs
    exact Option.noConfusion hs
  have hu : u ≠ "" := by
    intro h
    subst h
    exact hn0 (by decide)
  have hd1 : (process_urls env1 [u] disk0).disk =
      { articles := disk0.articles ++ [d], next_link := disk0.next_link } := by
    rw [(process_urls_fields env1 [u] disk0).2.1]
    simp [initState, step, hnew, hs, hsave]
  have hm2 : normalize u ∈ existing_normalized (disk0.articles ++ [d]) := by
    rw [existing_normalized_app]
    refine List.mem_append.mpr (Or.inr ?_)
    simp [existing_normalized, hdu, hu]
  have h2 : process_urls env2 [u]
      { articles := disk0.articles ++ [d], next_link := disk0.next_link } =
      { store := { articles := disk0.articles ++ [d], next_link := disk0.next_link },
        disk := { articles := disk0.articles ++ [d], next_link := disk0.next_link },
        index := existing_normalized (disk0.articles ++ [d]),
        batch := [],
        logs := ["Skipping cached URL: " ++ u, "No new content found to upload."],
        trace := [], saves := 0, exn := none } := by
    simp [process_urls, initState, step, hm2]
  rw [hd1, h2]
  refine ⟨?_, rfl, rfl, rfl⟩
  show ((disk0.articles ++ [d]).countP fun a => normalize a.url == normalize u) = 1
  rw [List.countP_append]
  have h0 : (disk0.articles.countP fun a => normalize a.url == normalize u) = 0 := by
    refine List.countP_eq_zero.mpr ?_
    intro a ha hpa
    have heq : normalize a.url = normalize u := by simpa using hpa
    by_cases hae : a.url = ""
    · rw [hae] at heq
      exact hn0 (heq.symm.trans (by decide))
    · exact hnew (heq ▸ mem_existing ha hae)
  rw [h0]
  simp [List.countP_cons, hdu]

/-- C2 witness: a concrete URL stored once and skipped on the second run,
under an environment whose fetch oracle rejects every empty-keyed URL. -/
theorem dedup_idempotent_witness :
    (process_urls envA ["http://a.com/x"]
      (process_urls envA ["http://a.com/x"] { articles := [], next_link := none }).disk).trace =
      [] :=
  (dedup_idempotent envA envA "http://a.com/x" { articles := [], next_link := none } dA
    (by
      intro v hv
      show (if v = "http://a.com/x" then some pageA
        else if v = "http://b.com/y" then some pageB else none) = none
      by_cases h1 : v = "http://a.com/x"
      · subst h1; exact absurd hv (by decide)
      · by_cases h2 : v = "http://b.com/y"
        · subst h2; exact absurd hv (by decide)
        · rw [if_neg h1, if_neg h2])
    (by decide) (by decide) rfl).2.2.1

/-! ## C8: pagination continuation persisted first -/

theorem foldl_step_next_link {env : Env} (urls : List String) :
    ∀ (st : RunState) (nl : Option String),
      st.store.next_link = nl → st.disk.next_link = nl →
      ((urls.foldl (step env) st).store.next_link = nl ∧
       (urls.foldl (step env) st).disk.next_link = nl) := by
  induction urls with
  | nil => intro st nl h1 h2; exact ⟨h1, h2⟩
  | cons u us ih =>
    intro st nl h1 h2
    rw [List.foldl_cons]
    rcases step_shape env st u with ⟨_, he⟩ | ⟨_, _, he⟩ | ⟨d, _, _, _, _, he⟩ |
      ⟨d, _, _, _, _, he⟩ | ⟨_, _, _, he⟩ <;> rw [he] <;>
      exact ih _ nl (by simp [h1, h2]) (by simp [h1, h2])

/-- C8 (confirmed): in the paginated __main__ branch the extracted
nextLink is persisted into next_link as the very first save, before any
article fetch appears in the trace (also when zero article links were
found, since the save is unconditional), and it is still the persisted
next_link when the run ends. -/
theorem next_link_persisted_first (env : Env) (start_url : String) (disk0 : Store)
    (hsave : env.mainSaveOk = true) :
    (main_paginated env start_url disk0).trace.get? 1 =
      some (Ev.saveFile
        { articles := disk0.articles, next_link := (env.extractLinks start_url).2 }) ∧
    (∀ j a, (main_paginated env start_url disk0).trace.get? j =
      some (Ev.fetchArticle a) → 1 < j) ∧
    (main_paginated env start_url disk0).disk.next_link =
      (env.extractLinks start_url).2 := by
  have hm : main_paginated env start_url disk0 =
      { process_urls env (env.extractLinks start_url).1
          { articles := disk0.articles, next_link := (env.extractLinks start_url).2 } with
        trace := Ev.fetchListing start_url ::
          Ev.saveFile
            { articles := disk0.articles, next_link := (env.extractLinks start_url).2 } ::
          (process_urls env (env.extractLinks start_url).1
            { articles := disk0.articles, next_link := (env.extractLinks start_url).2 }).trace } := by
    simp [main_paginated, hsave]
  refine ⟨?_, ?_, ?_⟩
  · rw [hm]; rfl
  · intro j a hj
    rw [hm] at hj
    match j with
    | 0 => simp [List.get?] at hj
    | 1 => simp [List.get?] at hj
    | j + 2 => omega
  · rw [hm]
    show (process_urls env (env.extractLinks start_url).1
      { articles := disk0.articles, next_link := (env.extractLinks start_url).2 }).disk.next_link = _
    rw [(process_urls_fields _ _ _).2.1]
    exact (foldl_step_next_link _ _ _ rfl rfl).2

/-- C8 witness: a listing with zero article links still persists the
next-page link as the first save. -/
theorem next_link_persisted_first_witness :
    (main_paginated envP "http://island.lk/?s=mas"
      { articles := [], next_link := none }).trace.get? 1 =
      some (Ev.saveFile { articles := [], next_link := some "http://s.com/page2" }) :=
  (next_link_persisted_first envP "http://island.lk/?s=mas"
    { articles := [], next_link := none } rfl).1

/-! ## C7: what process_urls hands back to its caller -/

theorem prefixOf_head_ne {a b : Char} (ps rest : List Char) (h : (a == b) = false) :
    (a :: ps).isPrefixOf (b :: rest) = false := by
  simp [List.isPrefixOf, h]

theorem prefixOf_second_ne {a b c d : Char} (ps rest : List Char) (h : (b == d) = false) :
    (a :: b :: ps).isPrefixOf (c :: d :: rest) = false := by
  simp [List.isPrefixOf, h]

theorem outcomeLog_skip (u : String) :
    outcomeLog ("Skipping cached URL: " ++ u) = true := by
  unfold outcomeLog
  rw [String.data_append, isPrefixOf_self_app]
  rfl

theorem outcomeLog_saved (t : String) :
    outcomeLog ("Saved to JSON: " ++ t) = true := by
  unfold outcomeLog
  rw [String.data_append, isPrefixOf_self_app]
  simp

theorem outcomeLog_failed (u : String) :
    outcomeLog ("Failed to extract content from: " ++ u) = true := by
  unfold outcomeLog
  rw [String.data_append, isPrefixOf_self_app]
  simp

theorem outcomeLog_scraping (u : String) : outcomeLog ("Scraping: " ++ u) = false := by
  unfold outcomeLog
  rw [String.data_append,
    show "Scraping: ".data = 'S' :: 'c' :: "raping: ".data from rfl,
    show ('S' :: 'c' :: "raping: ".data) ++ u.data =
      'S' :: 'c' :: ("raping: ".data ++ u.data) from rfl,
    show "Skipping cached URL: ".data = 'S' :: 'k' :: "ipping cached URL: ".data from rfl,
    show "Saved to JSON: ".data = 'S' :: 'a' :: "ved to JSON: ".data from rfl,
    show "Failed to extract content from: ".data =
      'F' :: "ailed to extract content from: ".data from rfl,
    prefixOf_second_ne _ _ (by decide), prefixOf_second_ne _ _ (by decide),
    prefixOf_head_ne _ _ (by decide)]
  rfl

theorem outcomeLog_preparing (n : String) :
    outcomeLog ("Preparing " ++ n ++ " articles for Astra DB ingestion...") = false := by
  unfold outcomeLog
  rw [String.data_append, String.data_append,
    show "Preparing ".data = 'P' :: "reparing ".data from rfl,
    show ('P' :: "reparing ".data) ++ n.data = 'P' :: ("reparing ".data ++ n.data) from rfl,
    show ('P' :: ("reparing ".data ++ n.data)) ++ " articles for Astra DB ingestion...".data =
      'P' :: (("reparing ".data ++ n.data) ++ " articles for Astra DB ingestion...".data)
      from rfl,
    show "Skipping cached URL: ".data = 'S' :: "kipping cached URL: ".data from rfl,
    show "Saved to JSON: ".data = 'S' :: "aved to JSON: ".data from rfl,
    show "Failed to extract content from: ".data =
      'F' :: "ailed to extract content from: ".data from rfl,
    prefixOf_head_ne _ _ (by decide), prefixOf_head_ne _ _ (by decide),
    prefixOf_head_ne _ _ (by decide)]
  rfl

theorem outcomeLog_nonew : outcomeLog "No new content found to upload." = false := by
  decide

theorem step_outcome (env : Env) (st : RunState) (u : String)
    (he : st.exn = none) (hk : env.saveOk st.saves = true) :
    (step env st u).logs.countP outcomeLog = st.logs.countP outcomeLog + 1 ∧
    (step env st u).exn = none := by
  rcases step_shape env st u with ⟨hsome, _⟩ | ⟨_, _, hst⟩ | ⟨d, _, _, _, _, hst⟩ |
    ⟨d, _, _, _, hk', _⟩ | ⟨_, _, _, hst⟩
  · rw [he] at hsome; exact absurd hsome (by simp)
  · rw [hst]
    exact ⟨by simp [List.countP_append, List.countP_cons, outcomeLog_skip], he⟩
  · rw [hst]
    exact ⟨by simp [List.countP_append, List.countP_cons, outcomeLog_scraping,
      outcomeLog_saved], rfl⟩
  · rw [hk] at hk'
    exact absurd hk' (by simp)
  · rw [hst]
    exact ⟨by simp [List.countP_append, List.countP_cons, outcomeLog_scraping,
      outcomeLog_failed], he⟩

theorem foldl_step_outcome {env : Env} (hsave : ∀ k, env.saveOk k = true)
    (urls : List String) :
    ∀ st : RunState, st.exn = none →
      ((urls.foldl (step env) st).logs.countP outcomeLog =
        st.logs.countP outcomeLog + urls.length ∧
       (urls.foldl (step env) st).exn = none) := by
  induction urls with
  | nil => intro st he; exact ⟨by simp, he⟩
  | cons u us ih =>
    intro st he
    rw [List.foldl_cons]
    obtain ⟨h1, h2⟩ := step_outcome env st u he (hsave st.saves)
    obtain ⟨h3, h4⟩ := ih (step env st u) h2
    refine ⟨?_, h4⟩
    rw [h3, h1, List.length_cons]
    omega

/-- C7 (corrected): process_urls hands nothing back to its caller (the
Python function returns None); the per-URL outcomes exist only as log
lines, exactly one outcome line (skipped, saved, or failed) per input URL,
and no documents are returned. -/
theorem run_reports_only_logs (env : Env) (urls : List String) (disk0 : Store)
    (hsave : ∀ k, env.saveOk k = true) :
    process_urls_ret env urls disk0 = () ∧
    (process_urls env urls disk0).logs.countP outcomeLog = urls.length := by
  refine ⟨rfl, ?_⟩
  obtain ⟨h1, h2⟩ := foldl_step_outcome hsave urls (initState disk0) rfl
  simp only [process_urls]
  rw [if_neg (by simp [h2])]
  by_cases hb : (urls.foldl (step env) (initState disk0)).batch ≠ []
  · rw [if_pos hb]
    show ((urls.foldl (step env) (initState disk0)).logs ++ [_]).countP outcomeLog = _
    rw [List.countP_append, h1]
    simp [initState, outcomeLog_preparing]
  · rw [if_neg hb]
    show ((urls.foldl (step env) (initState disk0)).logs ++ [_]).countP outcomeLog = _
    rw [List.countP_append, h1]
    simp [initState, outcomeLog_nonew]

/-- C7 witness: the outcome-line count at a concrete run. -/
theorem run_reports_only_logs_witness :
    (process_urls envA ["http://a.com/x", "http://dead.com"]
      { articles := [], next_link := none }).logs.countP outcomeLog = 2 :=
  (run_reports_only_logs envA ["http://a.com/x", "http://dead.com"]
    { articles := [], next_link := none } (fun _ => rfl)).2

/-- C7 counterexample: two runs with different processed counts return
the very same value to the caller, so the return value cannot be a
RunReport carrying the counts. -/
theorem run_report_cex :
    process_urls_ret envA ["http://a.com/x"] { articles := [], next_link := none } =
      process_urls_ret envA [] { articles := [], next_link := none } ∧
    (process_urls envA ["http://a.com/x"] { articles := [], next_link := none }).batch.length ≠
      (process_urls envA [] { articles := [], next_link := none }).batch.length :=
  ⟨rfl, by decide⟩

/-! ## C10: dedup index vs store contents -/

theorem foldl_step_index_inv {env : Env} (hsave : ∀ k, env.saveOk k = true)
    (urls : List String) :
    ∀ st : RunState, st.exn = none →
      (∀ s, s ∈ st.index ↔ s ∈ st.store.articles.map fun a => normalize a.url) →
      ((urls.foldl (step env) st).exn = none ∧
       ∀ s, s ∈ (urls.foldl (step env) st).index ↔
         s ∈ (urls.foldl (step env) st).store.articles.map fun a => normalize a.url) := by
  induction urls with
  | nil => intro st he hi; exact ⟨he, hi⟩
  | cons u us ih =>
    intro st he hi
    rw [List.foldl_cons]
    rcases step_shape env st u with ⟨hsome, _⟩ | ⟨_, _, hst⟩ | ⟨d, _, _, hs, _, hst⟩ |
      ⟨d, _, _, _, hk', _⟩ | ⟨_, _, _, hst⟩
    · rw [he] at hsome; exact absurd hsome (by simp)
    · rw [hst]; exact ih _ he hi
    · rw [hst]
      refine ih _ rfl ?_
      intro s
      show s ∈ st.index ++ [normalize u] ↔
        s ∈ (st.store.articles ++ [d]).map fun a => normalize a.url
      rw [List.map_append, List.mem_append, List.mem_append, hi s]
      simp [(scrape_fields hs).1]
    · rw [hsave st.saves] at hk'
      exact absurd hk' (by simp)
    · rw [hst]; exact ih _ he hi

theorem foldl_step_newdocs {env : Env} (urls : List String) :
    ∀ st : RunState,
      ∃ nd, (urls.foldl (step env) st).store.articles = st.store.articles ++ nd ∧
        ∀ d ∈ nd, scrape_article_content env d.url = some d := by
  induction urls with
  | nil => intro st; exact ⟨[], by simp, by simp⟩
  | cons u us ih =>
    intro st
    rw [List.foldl_cons]
    rcases step_shape env st u with ⟨_, hst⟩ | ⟨_, _, hst⟩ | ⟨d, _, _, hs, _, hst⟩ |
      ⟨d, _, _, hs, _, hst⟩ | ⟨_, _, _, hst⟩ <;> rw [hst]
    · exact ih st
    · exact ih _
    · obtain ⟨nd, h1, h2⟩ := ih _
      refine ⟨d :: nd, ?_, ?_⟩
      · rw [h1]; simp
      · intro d' hd'
        rcases List.mem_cons.mp hd' with h | h
        · subst h; rw [(scrape_fields hs).1]; exact hs
        · exact h2 d' h
    · obtain ⟨nd, h1, h2⟩ := ih _
      refine ⟨d :: nd, ?_, ?_⟩
      · rw [h1]; simp
      · intro d' hd'
        rcases List.mem_cons.mp hd' with h | h
        · subst h; rw [(scrape_fields hs).1]; exact hs
        · exact h2 d' h
    · exact ih _

theorem foldl_step_refetch {env : Env} (hsave : ∀ k, env.saveOk k = true) (u : String)
    (urls : List String) :
    ∀ st : RunState, st.exn = none →
      (∀ v ∈ urls, normalize v = normalize u → scrape_article_content env v = none) →
      normalize u ∉ st.index →
      ((urls.foldl (step env) st).trace.countP (fun e => e == Ev.fetchArticle u) =
         st.trace.countP (fun e => e == Ev.fetchArticle u) + urls.count u ∧
       normalize u ∉ (urls.foldl (step env) st).index ∧
       (urls.foldl (step env) st).exn = none) := by
  induction urls with
  | nil => intro st he _ hn; exact ⟨by simp, hn, he⟩
  | cons v vs ih =>
    intro st he hall hn
    rw [List.foldl_cons]
    have hall' : ∀ w ∈ vs, normalize w = normalize u → scrape_article_content env w = none :=
      fun w hw => hall w (List.mem_cons_of_mem _ hw)
    rcases step_shape env st v with ⟨hsome, _⟩ | ⟨_, hm, hst⟩ | ⟨d, _, hm, hs, _, hst⟩ |
      ⟨d, _, _, _, hk', _⟩ | ⟨_, hm, hsc, hst⟩
    · rw [he] at hsome; exact absurd hsome (by simp)
    · have hvu : v ≠ u := fun hvu => hn (hvu ▸ hm)
      obtain ⟨h1, h2, h3⟩ := ih (step env st v) (by rw [hst]; exact he) hall'
        (by rw [hst]; exact hn)
      refine ⟨?_, h2, h3⟩
      rw [h1, hst]
      show st.trace.countP _ + vs.count u = st.trace.countP _ + (v :: vs).count u
      rw [List.count_cons]
      simp [hvu]
    · have hnv : normalize v ≠ normalize u := by
        intro hEq
        rw [hall v (List.mem_cons_self v vs) hEq] at hs
        exact Option.noConfusion hs
      have hvu : v ≠ u := fun h => hnv (by rw [h])
      obtain ⟨h1, h2, h3⟩ := ih (step env st v) (by rw [hst]) hall' (by
        rw [hst]
        intro hmem
        rcases List.mem_append.mp hmem with h | h
        · exact hn h
        · exact hnv (List.mem_singleton.mp h).symm)
      refine ⟨?_, h2, h3⟩
      rw [h1, hst]
      show (st.trace ++ [Ev.fetchArticle v, Ev.saveFile _]).countP _ + vs.count u =
        st.trace.countP _ + (v :: vs).count u
      rw [List.countP_append, List.count_cons]
      simp [hvu, List.countP_cons]
    · rw [hsave st.saves] at hk'
      exact absurd hk' (by simp)
    · obtain ⟨h1, h2, h3⟩ := ih (step env st v) (by rw [hst]; exact he) hall'
        (by rw [hst]; exact hn)
      refine ⟨?_, h2, h3⟩
      rw [h1, hst]
      show (st.trace ++ [Ev.fetchArticle v]).countP _ + vs.count u =
        st.trace.countP _ + (v :: vs).count u
      rw [List.countP_append, List.count_cons]
      by_cases hvu : v = u
      · subst hvu
        simp [List.countP_cons]
        omega
      · simp [hvu, List.countP_cons]

theorem process_urls_trace_count (env : Env) (urls : List String) (disk0 : Store)
    (u : String) :
    (process_urls env urls disk0).trace.countP (fun e => e == Ev.fetchArticle u) =
      (urls.foldl (step env) (initState disk0)).trace.countP
        (fun e => e == Ev.fetchArticle u) := by
  simp only [process_urls]
  split
  · rfl
  · split
    · simp [List.countP_append]
    · rfl

/-- C10 (corrected): provided every initial document has a non-empty url
(empty urls are excluded from the dedup index) and no save raises, the
in-memory dedup index always matches the normalized urls of the in-memory
store; only successfully scraped documents are appended; and a URL whose
scrape fails (with no same-key URL succeeding) is fetched again at every
later occurrence instead of being skipped. -/
theorem dedup_index_invariant (env : Env) (urls : List String) (disk0 : Store)
    (hclean : ∀ d ∈ disk0.articles, d.url ≠ "")
    (hsave : ∀ k, env.saveOk k = true) :
    (∀ s, s ∈ (process_urls env urls disk0).index ↔
       s ∈ (process_urls env urls disk0).store.articles.map fun a => normalize a.url) ∧
    (∃ nd, (process_urls env urls disk0).store.articles = disk0.articles ++ nd ∧
       ∀ d ∈ nd, scrape_article_content env d.url = some d) ∧
    (∀ u, (∀ v ∈ urls, normalize v = normalize u → scrape_article_content env v = none) →
       normalize u ∉ existing_normalized disk0.articles →
       (process_urls env urls disk0).trace.countP (fun e => e == Ev.fetchArticle u) =
         urls.count u) := by
  have hfil : disk0.articles.filter (fun a => a.url ≠ "") = disk0.articles :=
    List.filter_eq_self.mpr fun a ha => by simp [hclean a ha]
  have hinit : ∀ s, s ∈ (initState disk0).index ↔
      s ∈ (initState disk0).store.articles.map fun a => normalize a.url := by
    intro s
    show s ∈ existing_normalized disk0.articles ↔ _
    unfold existing_normalized
    rw [hfil]
    exact Iff.rfl
  refine ⟨?_, ?_, ?_⟩
  · intro s
    rw [(process_urls_fields env urls disk0).2.2.1, (process_urls_fields env urls disk0).1]
    exact (foldl_step_index_inv hsave urls (initState disk0) rfl hinit).2 s
  · rw [(process_urls_fields env urls disk0).1]
    exact foldl_step_newdocs urls (initState disk0)
  · intro u hall hnot
    rw [process_urls_trace_count]
    have := (foldl_step_refetch hsave u urls (initState disk0) rfl hall hnot).1
    rw [this]
    simp [initState]

/-- C10 witness: a failing URL is fetched (not skipped) in a concrete run. -/
theorem dedup_index_invariant_witness :
    (process_urls envA ["http://dead.com"]
      { articles := [], next_link := none }).trace.countP
      (fun e => e == Ev.fetchArticle "http://dead.com") = 1 :=
  (dedup_index_invariant envA ["http://dead.com"] { articles := [], next_link := none }
    (by simp) (fun _ => rfl)).2.2 "http://dead.com" (by decide) (by decide)

/-- C10 counterexample: a legacy store holding a document with an empty
url breaks the claimed index-store equality after the first per-URL step:
the stored document's dedup key is missing from the index. -/
theorem dedup_index_cex :
    ("" ∈ (process_urls envA ["http://dead.com"]
        { articles := [docE], next_link := none }).store.articles.map
      fun a => normalize a.url) ∧
    "" ∉ (process_urls envA ["http://dead.com"]
      { articles := [docE], next_link := none }).index := by
  refine ⟨by decide, by decide⟩

end Scraper
